import Mathlib

/-!
Shallow embedding of `src/mos-pytorch1.1/model.py` (class `RNNModel`): a
mixture-of-softmaxes recurrent language model.  Pure tensor arithmetic is
embedded over `ℚ` (and over `ℝ` for the softmax output head); stochastic
components (dropout masks, recurrent cells) are passed in as explicit
function parameters; Python attribute mutation becomes explicit record
update / store passing.
-/

set_option maxHeartbeats 1000000

/-- A 2-d tensor (e.g. a weight matrix), indexed by row and column. -/
def Matrix2 : Type := Nat → Nat → ℚ

/-- A parameter store: tensors addressed by numeric ids.  Python objects
hold references into this store; reference assignment (`a.weight = b.weight`)
is modelled by two fields holding the same id. -/
def ParamStore : Type := Nat → Matrix2

/-- Overwrite the tensor stored at id `i` (in-place mutation of a shared
tensor: visible through every reference holding `i`). -/
def writeParam (s : ParamStore) (i : Nat) (t : Matrix2) : ParamStore :=
  fun j => if j = i then t else s j

/-- Read the tensor a reference id currently denotes. -/
def readParam (s : ParamStore) (i : Nat) : Matrix2 := s i

/-- Configuration errors that a constructor could surface to the caller. -/
inductive ConfigError : Type
  | tieShapeMismatch : ConfigError
  | nonPositiveCount : ConfigError
  | weightNameMissing : ConfigError

/-- Constructor arguments of `RNNModel.__init__` (model.py lines 15-17). -/
structure ModelConfig : Type where
  rnn_type : String
  ntoken : Nat
  ninp : Nat
  nhid : Nat
  nhidlast : Nat
  nlayers : Nat
  dropout : ℚ
  dropouth : ℚ
  dropouti : ℚ
  dropoute : ℚ
  wdrop : ℚ
  tie_weights : Bool
  ldropout : ℚ
  n_experts : Nat

/-- Descriptor of one recurrent layer as built on model.py lines 23-28:
`torch.nn.LSTM(ninp if l == 0 else nhid, nhid if l != nlayers - 1 else
nhidlast, 1)`, optionally wrapped in `WeightDrop` when `wdrop` is truthy. -/
structure RnnDesc : Type where
  inputSize : Nat
  hiddenSize : Nat
  weightDropped : Bool
  wdropP : ℚ

/-- The constructed model object: parameter references (store ids) plus the
scalar attributes stored by `__init__` (model.py lines 19-63).  Recurrent
cell parameters are kept as layer descriptors. -/
structure RNNModel : Type where
  encoderWeightId : Nat
  rnnDescs : List RnnDesc
  priorWeightId : Nat
  latentWeightId : Nat
  latentBiasId : Nat
  decoderWeightId : Nat
  decoderBiasId : Nat
  rnn_type : String
  ninp : Nat
  nhid : Nat
  nhidlast : Nat
  nlayers : Nat
  dropout : ℚ
  dropouti : ℚ
  dropouth : ℚ
  dropoute : ℚ
  ldropout : ℚ
  dropoutl : ℚ
  n_experts : Nat
  ntoken : Nat
  mc_eval : Bool
  use_dropout : Bool

/-- Fresh-tensor ids allocated by the constructor: encoder weight 0, prior
weight 1, latent weight 2, latent bias 3, decoder weight 4, decoder bias 5.
Line 44 (`if tie_weights: self.decoder.weight = self.encoder.weight`)
rebinds the decoder-weight reference to the encoder-weight id. -/
def rnnModelMk (cfg : ModelConfig) : RNNModel :=
  { encoderWeightId := 0
    rnnDescs := (List.range cfg.nlayers).map (fun l =>
      { inputSize := if l = 0 then cfg.ninp else cfg.nhid
        hiddenSize := if l ≠ cfg.nlayers - 1 then cfg.nhid else cfg.nhidlast
        weightDropped := decide (cfg.wdrop ≠ 0)
        wdropP := cfg.wdrop })
    priorWeightId := 1
    latentWeightId := 2
    latentBiasId := 3
    decoderWeightId := if cfg.tie_weights then 0 else 4
    decoderBiasId := 5
    rnn_type := cfg.rnn_type
    ninp := cfg.ninp
    nhid := cfg.nhid
    nhidlast := cfg.nhidlast
    nlayers := cfg.nlayers
    dropout := cfg.dropout
    dropouti := cfg.dropouti
    dropouth := cfg.dropouth
    dropoute := cfg.dropoute
    ldropout := cfg.ldropout
    dropoutl := cfg.ldropout
    n_experts := cfg.n_experts
    ntoken := cfg.ntoken
    mc_eval := false
    use_dropout := true }

/-- `init_weights` (model.py lines 70-74): writes a fresh uniform draw into
the encoder weight, zero into the decoder bias, and a fresh uniform draw
into the decoder weight.  The random draws `encInit`/`decInit` are supplied
by the caller (sampling oracle).  When the weights are tied, the decoder
write lands on the very same tensor as the encoder write (same id). -/
def initWeightsStore (m : RNNModel) (encInit decInit : Matrix2)
    (s : ParamStore) : ParamStore :=
  writeParam
    (writeParam (writeParam s m.encoderWeightId encInit)
      m.decoderBiasId (fun _ _ => 0))
    m.decoderWeightId decInit

/-- `RNNModel.__init__` end to end.  The Python constructor body contains no
`raise` statement and no argument validation (the tie-compatibility check of
the ancestral code is commented out on lines 42-43), so construction always
succeeds; the `Except` wrapper records the absence of any surfaced
configuration error. -/
def rnnModelInit (cfg : ModelConfig) (encInit decInit : Matrix2)
    (s : ParamStore) : Except ConfigError (RNNModel × ParamStore) :=
  let m := rnnModelMk cfg
  Except.ok (m, initWeightsStore m encInit decInit s)

/-- Whether a construction attempt produced a model (vs. a configuration
error). -/
def constructionOk (r : Except ConfigError (RNNModel × ParamStore)) : Bool :=
  match r with
  | Except.ok _ => true
  | Except.error _ => false

/-- A 3-d tensor with explicit dimensions (used for hidden states). -/
structure Tensor3Q : Type where
  dim1 : Nat
  dim2 : Nat
  dim3 : Nat
  val : Nat → Nat → Nat → ℚ

/-- `weight.new(a, b, c).zero_()`: a fresh all-zero tensor of the given
shape. -/
def newZeros (a b c : Nat) : Tensor3Q :=
  { dim1 := a, dim2 := b, dim3 := c, val := fun _ _ _ => 0 }

/-- `RNNModel.init_hidden` (model.py lines 132-136): per layer `l`, a pair
of zero tensors of shape `(1, bsz, nhid if l != nlayers - 1 else nhidlast)`. -/
def initHidden (m : RNNModel) (bsz : Nat) : List (Tensor3Q × Tensor3Q) :=
  (List.range m.nlayers).map (fun l =>
    (newZeros 1 bsz (if l ≠ m.nlayers - 1 then m.nhid else m.nhidlast),
     newZeros 1 bsz (if l ≠ m.nlayers - 1 then m.nhid else m.nhidlast)))

/-- The layer width the specification prescribes: `hidden_size` for every
layer except the last, which uses `hidden_size_last`. -/
def layerWidth (m : RNNModel) (l : Nat) : Nat :=
  if l = m.nlayers - 1 then m.nhidlast else m.nhid

/-- A sequence tensor of shape (time, batch, features), as produced by the
embedding lookup and by each recurrent layer. -/
def SeqTensor : Type := Nat → Nat → Nat → ℚ

/-- A token-id batch of shape (time, batch). -/
def TokenBatch : Type := Nat → Nat → Nat

/-- Modelled from the spec: `embedded_dropout` from `embed_regularize`
(imported on model.py line 6; its source file is not part of this
repository).  Spec 4.1: when the stochastic-masking flag `usedp` is
inactive the call is a plain row-selection lookup in the embedding table;
when active, whole vocabulary rows are kept or zeroed by a per-row mask,
kept rows scaled by `1/(1-p)` unless the no-rescale mode `mcEval` is set.
The Bernoulli row mask is supplied by the caller (`emask`). -/
def embedded_dropout (embW : Matrix2) (emask : Nat → Bool) (p : ℚ)
    (usedp : Bool) (mcEval : Bool) (input : TokenBatch) : SeqTensor :=
  if usedp then
    fun t b d =>
      (if emask (input t b) then (if mcEval then 1 else 1 / (1 - p)) else 0) *
        embW (input t b) d
  else
    fun t b d => embW (input t b) d

/-- A recurrent layer object (an `nn.LSTM`, possibly wrapped in
`WeightDrop`): it carries a mutable `mc_eval` attribute which its forward
computation reads, plus the computation itself (a function of the attribute,
the input sequence and the carried hidden state). -/
structure RnnCell (α β : Type) : Type where
  mc_eval : Bool
  run : Bool → α → β → α × β

/-- Invoking the layer (`rnn(raw_output, hidden[l])`): the forward
computation reads the object's current `mc_eval` attribute. -/
def RnnCell.call {α β : Type} (c : RnnCell α β) (x : α) (h : β) : α × β :=
  c.run c.mc_eval x h

/-- The layer loop of `RNNModel.forward` (model.py lines 92-102): for each
layer `l`, first set the cell's `mc_eval` attribute to the container's flag
(line 94), invoke the cell (line 95), collect the new hidden state and the
raw output (lines 96-97), and — only when `l != nlayers - 1` — pass the raw
output through sequence-consistent dropout (`ldh`, the lockdrop call of
lines 100-101), collect the dropped tensor into `outputs` (line 102) and
feed it to the next layer.  `nlayers` is the stored layer-count attribute;
`l` is the running index.  Returns (final raw output, new hidden states,
raw_outputs, outputs-so-far). -/
def rnnLoop {α β : Type} (nlayers : Nat) (mc : Bool) (ldh : α → α) :
    Nat → List (RnnCell α β) → List β → α → α × List β × List α × List α
  | _, [], _, x => (x, [], [], [])
  | _, _ :: _, [], x => (x, [], [], [])
  | l, c :: cs, h :: hs, x =>
      let c2 : RnnCell α β := { c with mc_eval := mc }
      let p := c2.call x h
      let x2 := if l ≠ nlayers - 1 then ldh p.1 else p.1
      let rest := rnnLoop nlayers mc ldh (l + 1) cs hs x2
      (rest.1, p.2 :: rest.2.1, p.1 :: rest.2.2.1,
        (if l ≠ nlayers - 1 then [ldh p.1] else []) ++ rest.2.2.2)

/-- The container state `RNNModel.forward` reads: the training flag of
`nn.Module`, the `use_dropout` switch, the `mc_eval` flag and the five
configured dropout probabilities. -/
structure FwdCfg : Type where
  training : Bool
  use_dropout : Bool
  mc_eval : Bool
  dropoute : ℚ
  dropouti : ℚ
  dropouth : ℚ
  dropout : ℚ
  dropoutl : ℚ

/-- `RNNModel.forward` (model.py lines 76-111), up to and including the
latent-dropout step; the softmax output head is embedded separately over
`ℝ`.  `ld` is the `MyLockedDropout` oracle (arguments: probability,
`mc_eval`, tensor); `latentFn` is the latent projection
`nn.Sequential(nn.Linear, nn.Tanh)` applied on line 109.  Mirrors:
line 80-81 embedding dropout with `usedp = (self.training and
self.use_dropout)` and `mc_eval = self.mc_eval`; line 84-85 input lockdrop;
lines 92-102 the layer loop; lines 105-107 output lockdrop appended to
`outputs`; lines 109-111 latent projection and lockdrop.  Returns
(output, new hidden, raw_outputs, outputs, dropped latent). -/
def forwardM {β : Type} (cfg : FwdCfg) (embW : Matrix2) (emask : Nat → Bool)
    (ld : ℚ → Bool → SeqTensor → SeqTensor) (latentFn : SeqTensor → SeqTensor)
    (cells : List (RnnCell SeqTensor β)) (hid : List β) (input : TokenBatch) :
    SeqTensor × List β × List SeqTensor × List SeqTensor × SeqTensor :=
  let emb := embedded_dropout embW emask cfg.dropoute
    (cfg.training && cfg.use_dropout) cfg.mc_eval input
  let emb2 := ld (if cfg.use_dropout then cfg.dropouti else 0) cfg.mc_eval emb
  let L := rnnLoop cells.length cfg.mc_eval
    (fun y => ld (if cfg.use_dropout then cfg.dropouth else 0) cfg.mc_eval y)
    0 cells hid emb2
  let output := ld (if cfg.use_dropout then cfg.dropout else 0) cfg.mc_eval L.1
  let outs := L.2.2.2 ++ [output]
  let latent := latentFn output
  let latentD := ld (if cfg.use_dropout then cfg.dropoutl else 0) cfg.mc_eval latent
  (output, L.2.1, L.2.2.1, outs, latentD)

/-- The return-arity selection of `forward` (model.py lines 128-130): the
intermediate activation lists `raw_outputs` and `outputs` are handed back
exactly when `return_h` is requested. -/
def forwardReturnLists {β : Type}
    (return_h : Bool)
    (r : SeqTensor × List β × List SeqTensor × List SeqTensor × SeqTensor) :
    Option (List SeqTensor × List SeqTensor) :=
  if return_h then some (r.2.2.1, r.2.2.2.1) else none

/-- Specification-side layer loop: identical chaining, but the container's
flag `mc` is handed to each cell's computation directly as an argument; the
cell objects' stored `mc_eval` attributes are never read. -/
def threadedLoop {α β : Type} (nlayers : Nat) (mc : Bool) (ldh : α → α) :
    Nat → List (RnnCell α β) → List β → α → α × List β × List α × List α
  | _, [], _, x => (x, [], [], [])
  | _, _ :: _, [], x => (x, [], [], [])
  | l, c :: cs, h :: hs, x =>
      let p := c.run mc x h
      let x2 := if l ≠ nlayers - 1 then ldh p.1 else p.1
      let rest := threadedLoop nlayers mc ldh (l + 1) cs hs x2
      (rest.1, p.2 :: rest.2.1, p.1 :: rest.2.2.1,
        (if l ≠ nlayers - 1 then [ldh p.1] else []) ++ rest.2.2.2)

/-- Specification-side forward: one mode flag `mc`, threaded as an explicit
argument into the embedding-dropout call, into every sequence-consistent
dropout call and into every recurrent cell invocation; no component's
stored flag is consulted. -/
def forwardThreaded {β : Type} (mc : Bool) (cfg : FwdCfg) (embW : Matrix2)
    (emask : Nat → Bool) (ld : ℚ → Bool → SeqTensor → SeqTensor)
    (latentFn : SeqTensor → SeqTensor) (cells : List (RnnCell SeqTensor β))
    (hid : List β) (input : TokenBatch) :
    SeqTensor × List β × List SeqTensor × List SeqTensor × SeqTensor :=
  let emb := embedded_dropout embW emask cfg.dropoute
    (cfg.training && cfg.use_dropout) mc input
  let emb2 := ld (if cfg.use_dropout then cfg.dropouti else 0) mc emb
  let L := threadedLoop cells.length mc
    (fun y => ld (if cfg.use_dropout then cfg.dropouth else 0) mc y)
    0 cells hid emb2
  let output := ld (if cfg.use_dropout then cfg.dropout else 0) mc L.1
  let outs := L.2.2.2 ++ [output]
  let latent := latentFn output
  let latentD := ld (if cfg.use_dropout then cfg.dropoutl else 0) mc latent
  (output, L.2.1, L.2.2.1, outs, latentD)

/-- The embedding stage of the forward pass (model.py lines 80-85): the
embedding-dropout lookup with masking flag `training && use_dropout`,
followed by input lockdrop with probability `dropouti`. -/
def embStage (cfg : FwdCfg) (embW : Matrix2) (emask : Nat → Bool)
    (ld : ℚ → Bool → SeqTensor → SeqTensor) (input : TokenBatch) : SeqTensor :=
  ld (if cfg.use_dropout then cfg.dropouti else 0) cfg.mc_eval
    (embedded_dropout embW emask cfg.dropoute
      (cfg.training && cfg.use_dropout) cfg.mc_eval input)

/-- The inter-layer sequence-consistent dropout application (model.py lines
100-101): probability `dropouth`, flag `mc_eval`. -/
def interDrop (cfg : FwdCfg) (ld : ℚ → Bool → SeqTensor → SeqTensor) :
    SeqTensor → SeqTensor :=
  fun y => ld (if cfg.use_dropout then cfg.dropouth else 0) cfg.mc_eval y

/-- The output sequence-consistent dropout application (model.py lines
105-106): probability `dropout`, flag `mc_eval`. -/
def outDrop (cfg : FwdCfg) (ld : ℚ → Bool → SeqTensor → SeqTensor) :
    SeqTensor → SeqTensor :=
  fun y => ld (if cfg.use_dropout then cfg.dropout else 0) cfg.mc_eval y

/-- Specification-side chaining of the recurrent stack as a recursion over
the layer list: each layer's raw output is passed through the inter-layer
dropout `ldh` before it feeds the next layer; the last layer's raw output
is not.  Returns (final raw output, new hidden states, per-layer raw
outputs, per-layer dropped outputs — one per non-last layer). -/
def lastChain {α β : Type} (mc : Bool) (ldh : α → α) :
    List (RnnCell α β) → List β → α → α × List β × List α × List α
  | [], _, x => (x, [], [], [])
  | _ :: _, [], x => (x, [], [], [])
  | c :: cs, h :: hs, x =>
      let p := c.run mc x h
      if cs.isEmpty then (p.1, [p.2], [p.1], [])
      else
        let y := ldh p.1
        let rest := lastChain mc ldh cs hs y
        (rest.1, p.2 :: rest.2.1, p.1 :: rest.2.2.1, y :: rest.2.2.2)

/-- The input tensor consumed by layer `i` of the stack entered with the
(dropped) embeddings `x0`: layer 0 consumes `x0`, and layer `i + 1`
consumes layer `i`'s raw output passed through the inter-layer dropout. -/
def layerInputSeq {α β : Type} (mc : Bool) (ldh : α → α)
    (C : Nat → RnnCell α β) (H : Nat → β) (x0 : α) : Nat → α
  | 0 => x0
  | i + 1 =>
      ldh (((C i).run mc (layerInputSeq mc ldh C H x0 i) (H i)).1)

/-- The raw (pre-inter-layer-dropout) output sequence of layer `i`. -/
def layerRawSeq {α β : Type} (mc : Bool) (ldh : α → α)
    (C : Nat → RnnCell α β) (H : Nat → β) (x0 : α) (i : Nat) : α :=
  ((C i).run mc (layerInputSeq mc ldh C H x0 i) (H i)).1

/-- The updated hidden state returned by layer `i`. -/
def layerHidSeq {α β : Type} (mc : Bool) (ldh : α → α)
    (C : Nat → RnnCell α β) (H : Nat → β) (x0 : α) (i : Nat) : β :=
  ((C i).run mc (layerInputSeq mc ldh C H x0 i) (H i)).2

/-- Row index of the `view(-1, batch_size, ntoken)` reshape (model.py line
126): entry (t, b) of the reshaped tensor is row `t * B + b` of the flat
tensor. -/
def rowIdx {T B : Nat} (t : Fin T) (b : Fin B) : Fin (T * B) :=
  ⟨t.1 * B + b.1, by
    have hb : b.1 < B := b.2
    have ht : t.1 + 1 ≤ T := t.2
    calc t.1 * B + b.1 < t.1 * B + B := by omega
      _ = (t.1 + 1) * B := by ring
      _ ≤ T * B := Nat.mul_le_mul_right B ht⟩

/-- Column index of the `latent.view(-1, self.ninp)` reshape (model.py line
112): feature `(k, e)` of a row of width `n_experts * ninp` sits at flat
position `k * E + e`. -/
def keIdx {K E : Nat} (k : Fin K) (e : Fin E) : Fin (K * E) :=
  ⟨k.1 * E + e.1, by
    have he : e.1 < E := e.2
    have hk : k.1 + 1 ≤ K := k.2
    calc k.1 * E + e.1 < k.1 * E + E := by omega
      _ = (k.1 + 1) * E := by ring
      _ ≤ K * E := Nat.mul_le_mul_right E hk⟩

/-- `nn.functional.softmax(x, -1)` along a length-`n` axis. -/
noncomputable def softmax {n : Nat} (x : Fin n → ℝ) (i : Fin n) : ℝ :=
  Real.exp (x i) / ∑ j, Real.exp (x j)

/-- Parameters of the mixture-of-softmaxes output head (model.py lines
31-33): `latent = nn.Sequential(nn.Linear(nhidlast, n_experts * ninp),
nn.Tanh())`, `decoder = nn.Linear(ninp, ntoken)`, `prior =
nn.Linear(nhidlast, n_experts, bias=False)`.  `Hd` is `nhidlast`, `K` is
`n_experts`, `E` is `ninp`, `V` is `ntoken`. -/
structure MosParams (Hd K E V : Nat) : Type where
  latentW : Fin (K * E) → Fin Hd → ℝ
  latentB : Fin (K * E) → ℝ
  decoderW : Fin V → Fin E → ℝ
  decoderB : Fin V → ℝ
  priorW : Fin K → Fin Hd → ℝ

/-- `self.latent(output)` (model.py line 109): the linear projection of the
post-dropout recurrent output `G` into `n_experts * ninp` features followed
by `tanh`.  Rows `i` range over the flattened (time, batch) axis. -/
noncomputable def mosLatent {R Hd K E V : Nat} (P : MosParams Hd K E V)
    (out : Fin R → Fin Hd → ℝ) : Fin R → Fin (K * E) → ℝ :=
  fun i j => Real.tanh ((∑ h, P.latentW j h * out i h) + P.latentB j)

/-- The latent tensor after the lockdrop call of model.py lines 110-111;
the dropout itself is an explicit oracle `ldl`. -/
noncomputable def mosLatentDropped {R Hd K E V : Nat} (P : MosParams Hd K E V)
    (ldl : (Fin R → Fin (K * E) → ℝ) → Fin R → Fin (K * E) → ℝ)
    (out : Fin R → Fin Hd → ℝ) : Fin R → Fin (K * E) → ℝ :=
  ldl (mosLatent P out)

/-- `logit = self.decoder(latent.view(-1, self.ninp))` (model.py line 112),
indexed as (row, expert, token): the `view` sends feature `(k, e)` to flat
column `k * E + e`. -/
noncomputable def mosLogit {R Hd K E V : Nat} (P : MosParams Hd K E V)
    (ldl : (Fin R → Fin (K * E) → ℝ) → Fin R → Fin (K * E) → ℝ)
    (out : Fin R → Fin Hd → ℝ) : Fin R → Fin K → Fin V → ℝ :=
  fun i k v =>
    (∑ e, P.decoderW v e * mosLatentDropped P ldl out i (keIdx k e)) +
      P.decoderB v

/-- `prior_logit = self.prior(output)` (model.py line 114): a bias-free
linear map of the post-dropout recurrent output. -/
noncomputable def mosPriorLogit {R Hd K E V : Nat} (P : MosParams Hd K E V)
    (out : Fin R → Fin Hd → ℝ) : Fin R → Fin K → ℝ :=
  fun i k => ∑ h, P.priorW k h * out i h

/-- `prior = nn.functional.softmax(prior_logit, -1)` (model.py line 115). -/
noncomputable def mosPrior {R Hd K E V : Nat} (P : MosParams Hd K E V)
    (out : Fin R → Fin Hd → ℝ) : Fin R → Fin K → ℝ :=
  fun i => softmax (mosPriorLogit P out i)

/-- The per-expert distributions: `softmax(logit.view(-1, ntoken),
-1).view(-1, n_experts, ntoken)` (model.py line 117), one softmax over the
vocabulary per (row, expert). -/
noncomputable def mosExpertProb {R Hd K E V : Nat} (P : MosParams Hd K E V)
    (ldl : (Fin R → Fin (K * E) → ℝ) → Fin R → Fin (K * E) → ℝ)
    (out : Fin R → Fin Hd → ℝ) : Fin R → Fin K → Fin V → ℝ :=
  fun i k => softmax (mosLogit P ldl out i k)

/-- The mixed distribution `prob = (prob * prior.unsqueeze(2).expand_as(
prob)).sum(1)` (model.py line 118): the prior-weighted sum over experts. -/
noncomputable def mosProb {R Hd K E V : Nat} (P : MosParams Hd K E V)
    (ldl : (Fin R → Fin (K * E) → ℝ) → Fin R → Fin (K * E) → ℝ)
    (out : Fin R → Fin Hd → ℝ) : Fin R → Fin V → ℝ :=
  fun i v => ∑ k, mosExpertProb P ldl out i k v * mosPrior P out i k

/-- The tail of `RNNModel.forward` (model.py lines 120-126): when
`return_prob` is requested the mixture tensor is returned directly,
otherwise `torch.log(prob.add_(1e-8))` (the epsilon is added in place
before the logarithm); in both cases the flat result is reshaped by
`view(-1, batch_size, ntoken)` to (time, batch, vocabulary). -/
noncomputable def mosForwardTail {T B Hd K E V : Nat} (P : MosParams Hd K E V)
    (ldl : (Fin (T * B) → Fin (K * E) → ℝ) → Fin (T * B) → Fin (K * E) → ℝ)
    (out : Fin (T * B) → Fin Hd → ℝ) (return_prob : Bool) :
    Fin T → Fin B → Fin V → ℝ :=
  let prob := mosProb P ldl out
  let model_output :=
    if return_prob then prob
    else fun i v => Real.log (prob i v + 1e-8)
  fun t b v => model_output (rowIdx t b) v

/-- A softmax along a nonempty axis sums to 1. -/
theorem softmax_sum {n : Nat} (x : Fin (n + 1) → ℝ) :
    ∑ i, softmax x i = 1 := by
  have hpos : 0 < ∑ j, Real.exp (x j) :=
    Finset.sum_pos (fun j _ => Real.exp_pos (x j)) Finset.univ_nonempty
  unfold softmax
  rw [← Finset.sum_div, div_self (ne_of_gt hpos)]

/-- The layer loop never reads the cells' stored `mc_eval` attributes: it
overwrites each attribute with the container's flag before the cell runs,
so it agrees with the loop that passes the flag directly. -/
theorem rnnLoop_eq_threadedLoop {α β : Type} (nlayers : Nat) (mc : Bool)
    (ldh : α → α) (l : Nat) (cells : List (RnnCell α β)) (hid : List β)
    (x : α) :
    rnnLoop nlayers mc ldh l cells hid x =
      threadedLoop nlayers mc ldh l cells hid x := by
  induction cells generalizing l hid x with
  | nil => rfl
  | cons c cs ih =>
    cases hid with
    | nil => rfl
    | cons h hs =>
      simp only [rnnLoop, threadedLoop, RnnCell.call, ih]

/-- Decomposing a map over an initial segment into head and shifted tail. -/
theorem map_range_succ_cons {γ : Type} (h : Nat → γ) (k : Nat) :
    (List.range (k + 1)).map h = h 0 :: (List.range k).map (fun i => h (i + 1)) := by
  rw [List.range_succ_eq_map]
  simp [List.map_map, Function.comp_def]

/-- The layer loop realizes the specification-side chain `lastChain`: the
loop's absolute-index test `l != nlayers - 1` is equivalent to "more layers
remain" whenever the running index plus the remaining layer count equals
the stored layer count. -/
theorem rnnLoop_eq_lastChain {α β : Type} (nlayers : Nat) (mc : Bool)
    (ldh : α → α) (cells : List (RnnCell α β)) :
    ∀ (l : Nat) (hid : List β) (x : α), l + cells.length = nlayers →
    rnnLoop nlayers mc ldh l cells hid x = lastChain mc ldh cells hid x := by
  induction cells with
  | nil => intro l hid x _; rfl
  | cons c cs ih =>
    intro l hid x hlen
    cases hid with
    | nil => rfl
    | cons h hs =>
      cases cs with
      | nil =>
        have hcond : ¬ l ≠ nlayers - 1 := by
          simp only [List.length_cons, List.length_nil] at hlen
          omega
        simp [rnnLoop, lastChain, RnnCell.call, if_neg hcond, hcond]
      | cons c2 cs2 =>
        have hcond : l ≠ nlayers - 1 := by
          simp only [List.length_cons] at hlen
          omega
        have hrec := ih (l + 1) hs
          (ldh (({ c with mc_eval := mc } : RnnCell α β).call x h).1)
          (by simp only [List.length_cons] at hlen ⊢; omega)
        simp only [rnnLoop, lastChain, RnnCell.call, if_pos hcond,
          List.isEmpty_cons, Bool.false_eq_true, if_neg, ite_false] at hrec ⊢
        rw [hrec]
        rfl

/-- Shifting `layerInputSeq` past layer 0: entering the chain one layer up
with the dropped output of layer 0. -/
theorem layerInputSeq_shift {α β : Type} (mc : Bool) (ldh : α → α)
    (C : Nat → RnnCell α β) (H : Nat → β) (x0 : α) (i : Nat) :
    layerInputSeq mc ldh C H x0 (i + 1) =
      layerInputSeq mc ldh (fun j => C (j + 1)) (fun j => H (j + 1))
        (ldh (layerRawSeq mc ldh C H x0 0)) i := by
  induction i with
  | zero => rfl
  | succ i ih =>
    show ldh (((C (i + 1)).run mc (layerInputSeq mc ldh C H x0 (i + 1))
      (H (i + 1))).1) = _
    rw [ih]
    rfl

/-- Shifting `layerRawSeq` past layer 0. -/
theorem layerRawSeq_shift {α β : Type} (mc : Bool) (ldh : α → α)
    (C : Nat → RnnCell α β) (H : Nat → β) (x0 : α) (i : Nat) :
    layerRawSeq mc ldh C H x0 (i + 1) =
      layerRawSeq mc ldh (fun j => C (j + 1)) (fun j => H (j + 1))
        (ldh (layerRawSeq mc ldh C H x0 0)) i := by
  show ((C (i + 1)).run mc (layerInputSeq mc ldh C H x0 (i + 1)) (H (i + 1))).1 = _
  rw [layerInputSeq_shift]
  rfl

/-- Shifting `layerHidSeq` past layer 0. -/
theorem layerHidSeq_shift {α β : Type} (mc : Bool) (ldh : α → α)
    (C : Nat → RnnCell α β) (H : Nat → β) (x0 : α) (i : Nat) :
    layerHidSeq mc ldh C H x0 (i + 1) =
      layerHidSeq mc ldh (fun j => C (j + 1)) (fun j => H (j + 1))
        (ldh (layerRawSeq mc ldh C H x0 0)) i := by
  show ((C (i + 1)).run mc (layerInputSeq mc ldh C H x0 (i + 1)) (H (i + 1))).2 = _
  rw [layerInputSeq_shift]
  rfl

/-- The specification-side chain over the layer family `C` with hidden
states `H`: per-layer raw outputs `layerRawSeq`, inter-layer dropout
applied to the first `N` of the `N + 1` raw outputs only, final raw output
that of the last layer. -/
theorem lastChain_run {α β : Type} (mc : Bool) (ldh : α → α) :
    ∀ (N : Nat) (C : Nat → RnnCell α β) (H : Nat → β) (x0 : α),
    lastChain mc ldh ((List.range (N + 1)).map C) ((List.range (N + 1)).map H) x0 =
    (layerRawSeq mc ldh C H x0 N,
     (List.range (N + 1)).map (layerHidSeq mc ldh C H x0),
     (List.range (N + 1)).map (layerRawSeq mc ldh C H x0),
     (List.range N).map (fun i => ldh (layerRawSeq mc ldh C H x0 i))) := by
  intro N
  induction N with
  | zero =>
    intro C H x0
    simp [List.range_succ, List.range_zero, lastChain, layerRawSeq,
      layerHidSeq, layerInputSeq]
  | succ N ih =>
    intro C H x0
    rw [map_range_succ_cons C (N + 1), map_range_succ_cons H (N + 1),
        map_range_succ_cons (layerHidSeq mc ldh C H x0) (N + 1),
        map_range_succ_cons (layerRawSeq mc ldh C H x0) (N + 1),
        map_range_succ_cons (fun i => ldh (layerRawSeq mc ldh C H x0 i)) N]
    have hne : ((List.range (N + 1)).map (fun i => C (i + 1))).isEmpty = false := by
      rw [map_range_succ_cons]
      rfl
    have hrec := ih (fun j => C (j + 1)) (fun j => H (j + 1))
      (ldh (layerRawSeq mc ldh C H x0 0))
    have hraw0 : layerRawSeq mc ldh C H x0 0 = ((C 0).run mc x0 (H 0)).1 := by
      simp [layerRawSeq, layerInputSeq]
    have hhid0 : layerHidSeq mc ldh C H x0 0 = ((C 0).run mc x0 (H 0)).2 := by
      simp [layerHidSeq, layerInputSeq]
    rw [hraw0] at hrec
    simp only [lastChain, hne, Bool.false_eq_true, if_neg, ite_false]
    rw [hrec, ← hraw0, ← hhid0]
    refine congrArg₂ Prod.mk ?_ (congrArg₂ Prod.mk ?_ (congrArg₂ Prod.mk ?_ ?_))
    · rw [layerRawSeq_shift]
    · refine congrArg₂ List.cons rfl ?_
      refine List.map_congr_left (fun i _ => ?_)
      rw [layerHidSeq_shift]
    · refine congrArg₂ List.cons rfl ?_
      refine List.map_congr_left (fun i _ => ?_)
      rw [layerRawSeq_shift]
    · refine congrArg₂ List.cons rfl ?_
      refine List.map_congr_left (fun i _ => ?_)
      rw [layerRawSeq_shift]




/-- C1: for every forward call on valid inputs, in raw-probability mode the
final mixed next-token distribution sums to 1 over the vocabulary axis for
every (time step, batch element) row, being the prior-weighted convex
combination of the per-expert softmax distributions — each of which sums to
1, as does the prior over experts. -/
theorem mos_mixture_sums_to_one {T B Hd K E V : Nat}
    (P : MosParams Hd (K + 1) E (V + 1))
    (ldl : (Fin (T * B) → Fin ((K + 1) * E) → ℝ) →
      Fin (T * B) → Fin ((K + 1) * E) → ℝ)
    (out : Fin (T * B) → Fin Hd → ℝ) (t : Fin T) (b : Fin B) :
    (∀ k, ∑ v, mosExpertProb P ldl out (rowIdx t b) k v = 1) ∧
    (∑ k, mosPrior P out (rowIdx t b) k = 1) ∧
    (∀ v, mosForwardTail P ldl out true t b v =
      ∑ k, mosExpertProb P ldl out (rowIdx t b) k v *
        mosPrior P out (rowIdx t b) k) ∧
    (∑ v, mosForwardTail P ldl out true t b v = 1) := by
  have hexp : ∀ k, ∑ v, mosExpertProb P ldl out (rowIdx t b) k v = 1 := by
    intro k
    exact softmax_sum (mosLogit P ldl out (rowIdx t b) k)
  have hprior : ∑ k, mosPrior P out (rowIdx t b) k = 1 :=
    softmax_sum (mosPriorLogit P out (rowIdx t b))
  have htail : ∀ v, mosForwardTail P ldl out true t b v =
      ∑ k, mosExpertProb P ldl out (rowIdx t b) k v *
        mosPrior P out (rowIdx t b) k := fun v => rfl
  refine ⟨hexp, hprior, htail, ?_⟩
  have hsum : ∑ v, mosForwardTail P ldl out true t b v =
      ∑ v, ∑ k, mosExpertProb P ldl out (rowIdx t b) k v *
        mosPrior P out (rowIdx t b) k :=
    Finset.sum_congr rfl (fun v _ => htail v)
  rw [hsum, Finset.sum_comm]
  have hk : ∀ k : Fin (K + 1),
      ∑ v, mosExpertProb P ldl out (rowIdx t b) k v *
        mosPrior P out (rowIdx t b) k =
      mosPrior P out (rowIdx t b) k := by
    intro k
    rw [← Finset.sum_mul, hexp k, one_mul]
  rw [Finset.sum_congr rfl (fun k _ => hk k), hprior]

/-- C2 counterexample: constructing with weight tying requested together
with unequal embedding and hidden widths (the ancestral incompatibility
that used to be checked) is not rejected: the constructor produces a
model. -/
theorem tie_mismatch_not_rejected :
    constructionOk (rnnModelInit
      { rnn_type := "LSTM", ntoken := 10, ninp := 5, nhid := 7,
        nhidlast := 7, nlayers := 2, dropout := 1/2, dropouth := 1/2,
        dropouti := 1/2, dropoute := 1/10, wdrop := 0,
        tie_weights := true, ldropout := 1/2, n_experts := 3 }
      (fun _ _ => 0) (fun _ _ => 0) (fun _ => fun _ _ => 0)) = true := rfl

/-- C2 amended: construction with weight tying always succeeds — the
dimension check is absent from the source (commented out on model.py lines
42-43) — and ties by aliasing the decoder-weight reference to the
embedding table; in this architecture the decoder input width and the
embedding width are the same constructor parameter `ninp`, so the shared
matrix is always shape-compatible. -/
theorem tie_construction_always_succeeds (cfg : ModelConfig)
    (encInit decInit : Matrix2) (s : ParamStore) :
    constructionOk (rnnModelInit { cfg with tie_weights := true }
      encInit decInit s) = true ∧
    (rnnModelMk { cfg with tie_weights := true }).decoderWeightId =
      (rnnModelMk { cfg with tie_weights := true }).encoderWeightId := by
  exact ⟨rfl, rfl⟩

/-- C3: when weight tying is enabled at construction, the decoder's
output-projection weight and the embedding table are one and the same
stored tensor: a write through the embedding-table reference is read back
identically through the decoder-weight reference, and vice versa. -/
theorem tied_weights_share_storage (cfg : ModelConfig) (s : ParamStore)
    (t : Matrix2) :
    readParam (writeParam s
        (rnnModelMk { cfg with tie_weights := true }).encoderWeightId t)
      (rnnModelMk { cfg with tie_weights := true }).decoderWeightId = t ∧
    readParam (writeParam s
        (rnnModelMk { cfg with tie_weights := true }).decoderWeightId t)
      (rnnModelMk { cfg with tie_weights := true }).encoderWeightId = t := by
  constructor <;> rfl

/-- C4: the caller-selected flag determines the returned distribution:
raw-probability mode returns the mixture tensor directly, otherwise
log(prob + 1e-8) is returned; in both cases entry (t, b, v) of the
(time, batch, vocabulary)-shaped result reads flat row t*B + b of the
mixture. -/
theorem mos_output_mode_select {T B Hd K E V : Nat} (P : MosParams Hd K E V)
    (ldl : (Fin (T * B) → Fin (K * E) → ℝ) → Fin (T * B) → Fin (K * E) → ℝ)
    (out : Fin (T * B) → Fin Hd → ℝ) (rp : Bool) (t : Fin T) (b : Fin B)
    (v : Fin V) :
    mosForwardTail P ldl out rp t b v =
      if rp then mosProb P ldl out (rowIdx t b) v
      else Real.log (mosProb P ldl out (rowIdx t b) v + 1e-8) := by
  cases rp <;> rfl

/-- C5: in every forward call over an (N+1)-layer recurrent stack,
sequence-consistent dropout with probability dropouth is applied to each
layer's raw output before it feeds the next layer — layers 0..N-1 only
(`layerInputSeq (i+1) = interDrop (layerRawSeq i)`) — while the last
layer's raw output is not given the inter-layer dropout: the tensor that
feeds the output head is the last raw output under the output-dropout call
alone. -/
theorem forward_interlayer_dropout {β : Type} (cfg : FwdCfg) (embW : Matrix2)
    (emask : Nat → Bool) (ld : ℚ → Bool → SeqTensor → SeqTensor)
    (latentFn : SeqTensor → SeqTensor) (N : Nat)
    (C : Nat → RnnCell SeqTensor β) (H : Nat → β) (input : TokenBatch) :
    ((forwardM cfg embW emask ld latentFn ((List.range (N + 1)).map C)
        ((List.range (N + 1)).map H) input).1 =
      outDrop cfg ld (layerRawSeq cfg.mc_eval (interDrop cfg ld) C H
        (embStage cfg embW emask ld input) N)) ∧
    ((forwardM cfg embW emask ld latentFn ((List.range (N + 1)).map C)
        ((List.range (N + 1)).map H) input).2.2.1 =
      (List.range (N + 1)).map (layerRawSeq cfg.mc_eval (interDrop cfg ld)
        C H (embStage cfg embW emask ld input))) ∧
    (∀ i, layerInputSeq cfg.mc_eval (interDrop cfg ld) C H
        (embStage cfg embW emask ld input) (i + 1) =
      interDrop cfg ld (layerRawSeq cfg.mc_eval (interDrop cfg ld) C H
        (embStage cfg embW emask ld input) i)) := by
  have hloop := rnnLoop_eq_lastChain (((List.range (N + 1)).map C).length)
    cfg.mc_eval (interDrop cfg ld) ((List.range (N + 1)).map C) 0
    ((List.range (N + 1)).map H)
    (embStage cfg embW emask ld input) (by simp)
  have hchain := lastChain_run cfg.mc_eval (interDrop cfg ld) N C H
    (embStage cfg embW emask ld input)
  refine ⟨?_, ?_, fun i => rfl⟩
  · show outDrop cfg ld (rnnLoop (((List.range (N + 1)).map C).length)
      cfg.mc_eval (interDrop cfg ld) 0 ((List.range (N + 1)).map C)
      ((List.range (N + 1)).map H)
      (embStage cfg embW emask ld input)).1 = _
    rw [hloop, hchain]
  · show (rnnLoop (((List.range (N + 1)).map C).length)
      cfg.mc_eval (interDrop cfg ld) 0 ((List.range (N + 1)).map C)
      ((List.range (N + 1)).map H)
      (embStage cfg embW emask ld input)).2.2.1 = _
    rw [hloop, hchain]

/-- C6: for every batch size B, `init_hidden` returns one (hidden, cell)
pair per layer — entry `l` exists exactly when `l < nlayers`, and is a pair
of all-zero tensors of shape (1, B, layerWidth), where the layer width is
`nhid` for all layers except the last, which uses `nhidlast`. -/
theorem init_hidden_spec (m : RNNModel) (B l : Nat) :
    (initHidden m B).length = m.nlayers ∧
    (initHidden m B)[l]? =
      (if l < m.nlayers then
        some (newZeros 1 B (layerWidth m l), newZeros 1 B (layerWidth m l))
      else none) ∧
    (∀ w i j k, (newZeros 1 B w).val i j k = 0 ∧ (newZeros 1 B w).dim1 = 1 ∧
      (newZeros 1 B w).dim2 = B ∧ (newZeros 1 B w).dim3 = w) := by
  refine ⟨by simp [initHidden], ?_,
    fun w i j k => ⟨rfl, rfl, rfl, rfl⟩⟩
  by_cases h : l < m.nlayers
  · rw [if_pos h]
    simp [initHidden, List.getElem?_map, List.getElem?_range h,
      layerWidth, ite_not]
  · rw [if_neg h]
    have hlen : (initHidden m B).length ≤ l := by
      simp only [initHidden, List.length_map, List.length_range]
      omega
    exact List.getElem?_eq_none hlen

/-- C7 counterexample: constructing with zero recurrent layers and zero
experts is not rejected: the constructor produces a model (no
configuration error is surfaced). -/
theorem zero_counts_not_rejected :
    constructionOk (rnnModelInit
      { rnn_type := "LSTM", ntoken := 10, ninp := 12, nhid := 12,
        nhidlast := 12, nlayers := 0, dropout := 1/2, dropouth := 1/2,
        dropouti := 1/2, dropoute := 1/10, wdrop := 0,
        tie_weights := false, ldropout := 1/2, n_experts := 0 }
      (fun _ _ => 0) (fun _ _ => 0) (fun _ => fun _ _ => 0)) = true := rfl

/-- C7 amended: the constructor performs no validation of the layer or
expert counts — construction succeeds for every argument combination,
including non-positive counts, producing a model whose recurrent stack
simply has `nlayers` descriptors (empty when `nlayers = 0`). -/
theorem construction_never_validates_counts (cfg : ModelConfig)
    (encInit decInit : Matrix2) (s : ParamStore) :
    constructionOk (rnnModelInit cfg encInit decInit s) = true ∧
    (rnnModelMk cfg).rnnDescs.length = cfg.nlayers := by
  exact ⟨rfl, by simp [rnnModelMk]⟩

/-- C8: the container's current mc_eval flag is threaded into every
dropout-capable component before that component is used: the forward pass
over cells carrying arbitrary pre-existing mc_eval attribute values equals
the specification-side forward in which the single flag `cfg.mc_eval` is
handed as an argument to the embedding-dropout call, to every
sequence-consistent-dropout call and to every recurrent cell invocation —
each cell's stored attribute is overwritten before the cell runs and never
otherwise consulted. -/
theorem forward_mc_threading {β : Type} (cfg : FwdCfg) (embW : Matrix2)
    (emask : Nat → Bool) (ld : ℚ → Bool → SeqTensor → SeqTensor)
    (latentFn : SeqTensor → SeqTensor) (cells : List (RnnCell SeqTensor β))
    (hid : List β) (input : TokenBatch) :
    forwardM cfg embW emask ld latentFn cells hid input =
      forwardThreaded cfg.mc_eval cfg embW emask ld latentFn cells hid input := by
  simp only [forwardM, forwardThreaded, rnnLoop_eq_threadedLoop]

/-- C9: with the return-intermediates flag true on an (N+1)-layer model,
the returned raw_outputs list has exactly N+1 entries — the pre-dropout
output sequence of each layer in layer order — and the returned outputs
list has exactly N+1 entries, of which the first N are the
post-inter-layer-dropout outputs and the last is the post-output-dropout
tensor G that feeds the mixture head. -/
theorem forward_return_intermediates {β : Type} (cfg : FwdCfg)
    (embW : Matrix2) (emask : Nat → Bool)
    (ld : ℚ → Bool → SeqTensor → SeqTensor) (latentFn : SeqTensor → SeqTensor)
    (N : Nat) (C : Nat → RnnCell SeqTensor β) (H : Nat → β)
    (input : TokenBatch) :
    forwardReturnLists true (forwardM cfg embW emask ld latentFn
        ((List.range (N + 1)).map C) ((List.range (N + 1)).map H) input) =
      some ((List.range (N + 1)).map (layerRawSeq cfg.mc_eval
              (interDrop cfg ld) C H (embStage cfg embW emask ld input)),
            (List.range N).map (fun i => interDrop cfg ld
              (layerRawSeq cfg.mc_eval (interDrop cfg ld) C H
                (embStage cfg embW emask ld input) i)) ++
            [outDrop cfg ld (layerRawSeq cfg.mc_eval (interDrop cfg ld) C H
              (embStage cfg embW emask ld input) N)]) ∧
    ((List.range (N + 1)).map (layerRawSeq cfg.mc_eval (interDrop cfg ld)
        C H (embStage cfg embW emask ld input))).length = N + 1 ∧
    ((List.range N).map (fun i => interDrop cfg ld
        (layerRawSeq cfg.mc_eval (interDrop cfg ld) C H
          (embStage cfg embW emask ld input) i)) ++
      [outDrop cfg ld (layerRawSeq cfg.mc_eval (interDrop cfg ld) C H
        (embStage cfg embW emask ld input) N)]).length = N + 1 := by
  have hloop := rnnLoop_eq_lastChain (((List.range (N + 1)).map C).length)
    cfg.mc_eval (interDrop cfg ld) ((List.range (N + 1)).map C) 0
    ((List.range (N + 1)).map H) (embStage cfg embW emask ld input) (by simp)
  have hchain := lastChain_run cfg.mc_eval (interDrop cfg ld) N C H
    (embStage cfg embW emask ld input)
  refine ⟨?_, by simp, by simp⟩
  show some ((rnnLoop (((List.range (N + 1)).map C).length) cfg.mc_eval
      (interDrop cfg ld) 0 ((List.range (N + 1)).map C)
      ((List.range (N + 1)).map H)
      (embStage cfg embW emask ld input)).2.2.1,
    (rnnLoop (((List.range (N + 1)).map C).length) cfg.mc_eval
      (interDrop cfg ld) 0 ((List.range (N + 1)).map C)
      ((List.range (N + 1)).map H)
      (embStage cfg embW emask ld input)).2.2.2 ++
    [outDrop cfg ld (rnnLoop (((List.range (N + 1)).map C).length)
      cfg.mc_eval (interDrop cfg ld) 0 ((List.range (N + 1)).map C)
      ((List.range (N + 1)).map H)
      (embStage cfg embW emask ld input)).1]) = _
  rw [hloop, hchain]

/-- C10: the stochastic-masking flag handed to the embedding-dropout step
is exactly (training AND use_dropout); consequently, in evaluation mode
(training false) the embedding lookup degenerates to the plain table
lookup, and the whole forward result is independent of the embedding mask
draw and of the configured embedding-dropout probability. -/
theorem eval_mode_embedding_dropout_inactive {β : Type} (cfg : FwdCfg)
    (embW : Matrix2) (emask emaskB : Nat → Bool) (p pB : ℚ)
    (ld : ℚ → Bool → SeqTensor → SeqTensor) (latentFn : SeqTensor → SeqTensor)
    (cells : List (RnnCell SeqTensor β)) (hid : List β)
    (input : TokenBatch) :
    (embedded_dropout embW emask p (false && cfg.use_dropout) cfg.mc_eval
        input = fun t b d => embW (input t b) d) ∧
    (forwardM { cfg with training := false, dropoute := p } embW emask ld
        latentFn cells hid input =
      forwardM { cfg with training := false, dropoute := pB } embW emaskB ld
        latentFn cells hid input) := by
  constructor
  · simp [embedded_dropout]
  · unfold forwardM
    simp [embedded_dropout]
